import Mathlib

/-!
# Verification of the sharme durable-sync core

Shallow embedding of the sharme repository (local SQLite fact store,
Arweave archive adapter, push/pull sync engine, share redemption) together
with proofs of the specification claims C1 to C10.

Conventions of the embedding:
* SQLite tables become Lean lists of row structures; each store function is
  one state transition of a `Store` value (the process is single threaded,
  so a whole store call is one atomic step of the model).
* JavaScript numbers that can be `NaN` are `Option Int` (`none` = NaN).
* Network interaction is modelled by oracles: a list of per-endpoint
  outcomes for one request, and a page-indexed oracle for paginated
  GraphQL queries.
-/

namespace Sharme

/-! ## JavaScript helpers -/

/-- Value of a run of leading decimal digits; `none` when there is no digit
(`Number.parseInt` returns `NaN` in that case). -/
def digitsValue (cs : List Char) : Option Nat :=
  let ds := cs.takeWhile Char.isDigit
  if ds.isEmpty then none
  else some (ds.foldl (fun a c => 10 * a + (c.toNat - 48)) 0)

/-- Model of JavaScript `Number.parseInt(s, 10)`: skip leading whitespace,
optional sign, longest run of decimal digits; `none` models `NaN`. -/
def jsParseInt (s : String) : Option Int :=
  let cs := s.toList.dropWhile Char.isWhitespace
  match cs with
  | '-' :: rest => (digitsValue rest).map (fun n => -(n : Int))
  | '+' :: rest => (digitsValue rest).map (fun n => (n : Int))
  | _           => (digitsValue cs).map (fun n => (n : Int))

/-- Model of JavaScript `String(n)` for a number that may be `NaN`. -/
def jsNumToString : Option Int → String
  | none => "NaN"
  | some i => toString i

/-- Model of JavaScript `toLowerCase` (character-wise case folding),
structurally recursive so that it evaluates inside the kernel. -/
def jsToLower (s : String) : String :=
  ⟨s.data.map Char.toLower⟩

/-- Model of JavaScript `trim` (strip leading and trailing whitespace),
structurally recursive so that it evaluates inside the kernel. -/
def jsTrim (s : String) : String :=
  ⟨(((s.data.dropWhile Char.isWhitespace).reverse).dropWhile
      Char.isWhitespace).reverse⟩

/-- Model of `Array.prototype.join(sep)`. -/
def joinSep (sep : String) : List String → String
  | [] => ""
  | [x] => x
  | x :: xs => x ++ sep ++ joinSep sep xs

/-! ## Local store (`src/core/db.js`, `src/unnamed/part_000`)

The four tables of the schema become four lists.  Row order models SQLite
rowid order: `INSERT` appends, `ON CONFLICT ... DO UPDATE` updates in
place. -/

/-- A fact as passed to `upsertFact` (the `Fact` type of `types.ts`):
`tags` is still a list; the store serializes it with `JSON.stringify`. -/
structure Fact where
  id : String
  scope : String
  key : String
  value : String
  tags : List String
  confidence : Rat
  source_session : Option String
  created : String
  last_confirmed : String
  access_count : Int
  deriving Repr, DecidableEq

/-- A row of the `facts` table.  `tags` is the stored JSON text and
`dirty` the stored `INTEGER` flag (`1` dirty, `0` clean). -/
structure FactRow where
  id : String
  scope : String
  key : String
  value : String
  tags : String
  confidence : Rat
  source_session : Option String
  created : String
  last_confirmed : String
  access_count : Int
  dirty : Nat
  deriving Repr, DecidableEq

/-- One message of a conversation. -/
structure Message where
  role : String
  content : String
  deriving Repr, DecidableEq

/-- A conversation payload (`types.ts`). -/
structure Conversation where
  id : String
  client : String
  project : String
  messages : List Message
  startedAt : String
  updatedAt : String
  deriving Repr, DecidableEq

/-- A row of the `shared_conversation_imports` table
(primary key `share_id`). -/
structure ImportRow where
  share_id : String
  tx_id : String
  conversation_id : String
  client : String
  project : String
  message_count : Nat
  imported_at : String
  payload : String
  deriving Repr, DecidableEq

/-- The SQLite database state: `facts`, `pending_deletes` (key and
`deleted_at`), the `meta` key-value table, and the share-import ledger. -/
structure Store where
  facts : List FactRow
  pending : List (String × String)
  meta : List (String × String)
  imports : List ImportRow
  deriving Repr, DecidableEq

/-- Minimal model of `JSON.stringify` on a string (escapes backslash and
quote); only injectivity-style faithfulness matters to the claims. -/
def jsonQuote (s : String) : String :=
  "\"" ++ String.join (s.toList.map (fun c =>
    if c = '\\' then "\\\\" else if c = '"' then "\\\"" else String.singleton c)) ++ "\""

/-- `JSON.stringify(fact.tags)`: the stored form of a tag list. -/
def stringifyTags (tags : List String) : String :=
  "[" ++ joinSep "," (tags.map jsonQuote) ++ "]"

/-- `getMeta(db, key)`: `SELECT value FROM meta WHERE key = ?`. -/
def getMeta (s : Store) (key : String) : Option String :=
  (s.meta.find? (fun p => p.1 == key)).map (·.2)

/-- `setMeta(db, key, value)`: insert, or update the value on key conflict. -/
def setMeta (s : Store) (key value : String) : Store :=
  if s.meta.any (fun p => p.1 == key) then
    { s with meta := s.meta.map (fun p => if p.1 == key then (p.1, value) else p) }
  else
    { s with meta := s.meta ++ [(key, value)] }

/-- `upsertFact(db, fact)`: `INSERT ... ON CONFLICT(key) DO UPDATE` that
replaces every column except `key` and `created` and forces `dirty = 1`,
followed by `DELETE FROM pending_deletes WHERE key = ?`.  The two
statements run back to back inside the single-threaded process, so the
model treats the pair as one transition. -/
def upsertFact (s : Store) (f : Fact) : Store :=
  let facts' :=
    if s.facts.any (fun r => r.key == f.key) then
      s.facts.map (fun r =>
        if r.key == f.key then
          { r with
              id := f.id
              scope := f.scope
              value := f.value
              tags := stringifyTags f.tags
              confidence := f.confidence
              source_session := f.source_session
              last_confirmed := f.last_confirmed
              access_count := f.access_count
              dirty := 1 }
        else r)
    else
      s.facts ++ [{
        id := f.id, scope := f.scope, key := f.key, value := f.value,
        tags := stringifyTags f.tags, confidence := f.confidence,
        source_session := f.source_session, created := f.created,
        last_confirmed := f.last_confirmed, access_count := f.access_count,
        dirty := 1 }]
  { s with
      facts := facts'
      pending := s.pending.filter (fun p => !(p.1 == f.key)) }

/-- `deleteFact(db, key)`: check existence, delete the fact row, and only
when a row existed insert-or-replace `pending_deletes(key, now)`.
`now` is the `new Date().toISOString()` value. -/
def deleteFact (s : Store) (key now : String) : Store :=
  let existed := s.facts.any (fun r => r.key == key)
  let facts' := s.facts.filter (fun r => !(r.key == key))
  if existed then
    { s with
        facts := facts'
        pending := s.pending.filter (fun p => !(p.1 == key)) ++ [(key, now)] }
  else
    { s with facts := facts' }

/-- `getDirtyFacts(db)` row part: `SELECT * FROM facts WHERE dirty = 1`. -/
def getDirtyRows (s : Store) : List FactRow :=
  s.facts.filter (fun r => r.dirty == 1)

/-- `getPendingDeletes(db)`: `SELECT key FROM pending_deletes`. -/
def getPendingDeletes (s : Store) : List String :=
  s.pending.map (·.1)

/-- `clearDirtyState(db)`: zero every `dirty` flag and empty
`pending_deletes`. -/
def clearDirtyState (s : Store) : Store :=
  { s with
      facts := s.facts.map (fun r => { r with dirty := 0 })
      pending := [] }

/-- `hasSharedConversationImport(db, shareId)`. -/
def hasSharedConversationImport (tbl : List ImportRow) (shareId : String) : Bool :=
  tbl.any (fun r => r.share_id == shareId)

/-- Minimal model of `JSON.stringify(conversation)` (the stored payload
text is never inspected by the claims). -/
def jsonOfConversation (c : Conversation) : String :=
  "\x7b" ++ jsonQuote "id" ++ ":" ++ jsonQuote c.id ++ ","
    ++ jsonQuote "client" ++ ":" ++ jsonQuote c.client ++ ","
    ++ jsonQuote "project" ++ ":" ++ jsonQuote c.project ++ ","
    ++ jsonQuote "messages" ++ ":["
    ++ joinSep "," (c.messages.map (fun m =>
        "\x7b" ++ jsonQuote "role" ++ ":" ++ jsonQuote m.role ++ ","
          ++ jsonQuote "content" ++ ":" ++ jsonQuote m.content ++ "\x7d"))
    ++ "]," ++ jsonQuote "startedAt" ++ ":" ++ jsonQuote c.startedAt ++ ","
    ++ jsonQuote "updatedAt" ++ ":" ++ jsonQuote c.updatedAt ++ "\x7d"

/-- The entry argument of `saveSharedConversationImport`. -/
structure ImportEntry where
  shareId : String
  txId : String
  conversation : Conversation
  deriving Repr, DecidableEq

/-- The row a successful `saveSharedConversationImport` inserts. -/
def importRowOf (e : ImportEntry) (now : String) : ImportRow :=
  { share_id := e.shareId
    tx_id := e.txId
    conversation_id := e.conversation.id
    client := e.conversation.client
    project := e.conversation.project
    message_count := e.conversation.messages.length
    imported_at := now
    payload := jsonOfConversation e.conversation }

/-- `saveSharedConversationImport(db, entry)`: a plain `INSERT` into a
table whose primary key is `share_id`; SQLite raises a uniqueness
violation when the key is already present, modelled as `Except.error`. -/
def saveSharedConversationImport (tbl : List ImportRow) (e : ImportEntry)
    (now : String) : Except String (List ImportRow) :=
  if hasSharedConversationImport tbl e.shareId then
    .error "UNIQUE constraint failed: shared_conversation_imports.share_id"
  else
    .ok (tbl ++ [importRowOf e now])

/-- The store-facing tail of `syncCommand` (`src/cli/sync.ts`, lines
66-80): check `hasSharedConversationImport`; when present report
"Share already imported." and leave the table alone, otherwise insert the
row and report "Conversation imported.".  An uncaught store exception
propagates as `Except.error`. -/
def redeemStep (tbl : List ImportRow) (shareId txId : String)
    (conv : Conversation) (now : String) :
    Except String (List ImportRow × String) :=
  if hasSharedConversationImport tbl shareId then
    .ok (tbl, "Share already imported.")
  else
    (saveSharedConversationImport tbl
        { shareId := shareId, txId := txId, conversation := conv } now).map
      (fun tbl' => (tbl', "Conversation imported."))

/-! ## Push pipeline (`syncDirtyFacts` in `src/unnamed/part_001`)

`createChunkedShards`, `factToUpsertOp` and `serializeShard` live in
`src/core/shard.ts`, which is not part of the provided sources; they are
modelled from the spec below.  `syncDirtyFacts` itself is translated from
the source.  The upload backend (`pushShard`) is an oracle of per-shard
outcomes: `ok i = true` means the i-th `pushShard` call of the batch
returned a transaction id, `false` means it threw. -/

/-- The transmitted form of a fact: the facts row minus the local `dirty`
flag (spec: "upsert `{fact: <Fact minus dirty>}`"). -/
structure FactData where
  id : String
  scope : String
  key : String
  value : String
  tags : String
  confidence : Rat
  source_session : Option String
  created : String
  last_confirmed : String
  access_count : Int
  deriving Repr, DecidableEq

/-- Modelled from the spec: `factToUpsertOp(fact)` builds an upsert op and
strips `dirty`. -/
def dropDirty (r : FactRow) : FactData :=
  { id := r.id, scope := r.scope, key := r.key, value := r.value,
    tags := r.tags, confidence := r.confidence,
    source_session := r.source_session, created := r.created,
    last_confirmed := r.last_confirmed, access_count := r.access_count }

/-- A shard operation: upsert a fact or delete a key. -/
inductive Op where
  | upsert (fact : FactData)
  | delete (key : String)
  deriving Repr, DecidableEq

/-- Modelled from the spec: `factToUpsertOp`. -/
def factToUpsertOp (r : FactRow) : Op := .upsert (dropDirty r)

/-- Modelled from the spec: serialized-byte count of one op in the
canonical JSON encoding (used only to drive the greedy bin-packing). -/
def opSize : Op → Nat
  | .upsert f =>
      40 + f.id.length + f.scope.length + f.key.length + f.value.length +
        f.tags.length + f.created.length + f.last_confirmed.length +
        (match f.source_session with | some s => s.length + 2 | none => 4) + 24
  | .delete k => 24 + k.length

/-- Shard creation byte budget: 90 KiB. -/
def SHARD_BUDGET : Nat := 90 * 1024

/-- A shard of the push pipeline.  `shard_version` is a JavaScript number
(`none` = NaN, propagated from an unparsable `current_version`). -/
structure Shard where
  shard_version : Option Int
  shard_id : String
  type : String
  operations : List Op
  deriving Repr, DecidableEq

/-- Modelled from the spec: greedy bin-pack of the op list by
serialized-byte count; a new group starts when the next op would exceed
the budget; every group carries at least one op. -/
def packOps : List Op → List Op → Nat → List (List Op)
  | [], cur, _ => if cur.isEmpty then [] else [cur]
  | op :: rest, cur, curSize =>
      if !cur.isEmpty && curSize + opSize op > SHARD_BUDGET then
        cur :: packOps rest [op] (opSize op)
      else
        packOps rest (cur ++ [op]) (curSize + opSize op)

/-- Modelled from the spec: `create_chunked_shards(ops, start_version,
shard_id_seed)`: pack the ops greedily and number the resulting shards
`start_version, start_version + 1, ...`. -/
def createChunkedShards (ops : List Op) (startVersion : Option Int)
    (seed : String) : List Shard :=
  (packOps ops [] 0).mapIdx (fun i grp =>
    { shard_version := startVersion.map (· + (i : Int))
      shard_id := seed
      type := "delta"
      operations := grp })

/-- The op list one push tick sends: upserts of the dirty rows followed by
deletes of the pending keys. -/
def pushOps (s : Store) : List Op :=
  (getDirtyRows s).map factToUpsertOp ++ (getPendingDeletes s).map Op.delete

/-- `parseInt(getMeta(db, "current_version") ?? "0", 10)`. -/
def currentVersionOf (s : Store) : Option Int :=
  jsParseInt ((getMeta s "current_version").getD "0")

/-- The shard batch a push tick of store `s` builds (`shards` in
`syncDirtyFacts`). -/
def pushShardsOf (s : Store) (seed : String) : List Shard :=
  createChunkedShards (pushOps s) ((currentVersionOf s).map (· + 1)) seed

/-- The upload loop of `syncDirtyFacts`: try the shards in order; on the
first failed `pushShard` the exception aborts the loop (the shards
uploaded so far are returned with `none`); on success of all, the final
`lastVersion` is returned.  `i` is the index of the next shard within the
batch. -/
def runUploads (ok : Nat → Bool) (i : Nat) (shards : List Shard)
    (lastV : Option Int) : List (Option Int) × Option (Option Int) :=
  match shards with
  | [] => ([], some lastV)
  | sh :: rest =>
      if ok i then
        let r := runUploads ok (i + 1) rest sh.shard_version
        (sh.shard_version :: r.1, r.2)
      else
        ([], none)

/-- `syncDirtyFacts(db, ...)` (`src/unnamed/part_001`, lines 334-362):
read the dirty rows and pending deletes; return immediately when both
are empty; otherwise build the op list, chunk it starting at
`current_version + 1`, upload shard by shard, and only after every upload
succeeded clear the dirty state and advance `current_version` and
`last_pushed_version` to the last uploaded version.  Any exception
(modelled: a failed upload) is caught and leaves the store untouched.
Returns the updated store and the versions of the shards that were
uploaded. -/
def syncDirtyFacts (s : Store) (seed : String) (ok : Nat → Bool) :
    Store × List (Option Int) :=
  if (getDirtyRows s).isEmpty && (getPendingDeletes s).isEmpty then (s, [])
  else
    match runUploads ok 0 (pushShardsOf s seed) (currentVersionOf s) with
    | (uploaded, some lastV) =>
        let s1 := clearDirtyState s
        let s2 := setMeta s1 "current_version" (jsNumToString lastV)
        let s3 := setMeta s2 "last_pushed_version" (jsNumToString lastV)
        (s3, uploaded)
    | (uploaded, none) => (s, uploaded)

/-! ## Archive adapter (`src/core/arweave.ts`)

The GraphQL gateway and the data gateway are modelled by outcome oracles:
for one request, a list of per-endpoint outcomes in endpoint order; for a
paginated query, a function from the page index (0-based request count)
to that list. -/

/-- A transaction node as returned by the gateway: id plus tag list. -/
structure TxNode where
  id : String
  tags : List (String × String)
  deriving Repr, DecidableEq

/-- One edge of a GraphQL `transactions` page. -/
structure GqlEdge where
  cursor : String
  node : TxNode
  deriving Repr, DecidableEq

/-- The `data.transactions` object: optional `pageInfo.hasNextPage`
(outer option: `pageInfo` present, inner: `hasNextPage` present) and
optional `edges`. -/
structure GqlTransactions where
  pageInfo : Option (Option Bool)
  edges : Option (List GqlEdge)
  deriving Repr, DecidableEq

/-- A parsed GraphQL response body: optional `data.transactions` and the
optional `errors` array (entries carry an optional `message`). -/
structure GqlResp where
  dataTransactions : Option GqlTransactions
  errors : Option (List (Option String))
  deriving Repr, DecidableEq

/-- Outcome of one `fetch` of a GraphQL endpoint: network/JSON failure,
non-2xx status, or a parsed body. -/
inductive GqlOutcome where
  | netErr (msg : String)
  | httpErr (status : Nat) (statusText : String)
  | ok (resp : GqlResp)
  deriving Repr, DecidableEq

/-- `new Map(tags)` lookup: the last tag with the given name wins. -/
def tagLast (tags : List (String × String)) (name : String) : Option String :=
  ((tags.filter (fun t => t.1 == name)).getLast?).map (·.2)

/-- `gqlRequest` failover loop body: walk the endpoint outcomes, record a
reason string per failed endpoint, return the first parsed body. -/
def gqlGo : List (String × GqlOutcome) → List String → Except String GqlResp
  | [], errs =>
      .error ("Arweave GraphQL request failed across all gateways: " ++
        joinSep " | " errs)
  | (ep, o) :: rest, errs =>
      match o with
      | .netErr msg => gqlGo rest (errs ++ [ep ++ ": " ++ msg])
      | .httpErr status statusText =>
          gqlGo rest (errs ++ [ep ++ ": " ++ toString status ++ " " ++ statusText])
      | .ok r => .ok r

/-- `gqlRequest(body)` (`src/core/arweave.ts`, lines 507-530): POST the
query to each configured GraphQL endpoint in order; a network error,
JSON-parse error or non-2xx status moves on to the next endpoint; the
first parsed body is returned as is (GraphQL-level `errors` are NOT
inspected here); exhaustion raises the aggregated error. -/
def gqlRequest (attempts : List (String × GqlOutcome)) : Except String GqlResp :=
  gqlGo attempts []

/-- Shard type accepted by `queryShards`. -/
inductive ShardType where
  | delta
  | snapshot
  | identity
  deriving Repr, DecidableEq

/-- The tag string of a shard type. -/
def typeName : ShardType → String
  | .delta => "delta"
  | .snapshot => "snapshot"
  | .identity => "identity"

/-- The `ShardInfo` record `queryShards` returns. -/
structure ShardInfo where
  txId : String
  version : Int
  type : ShardType
  timestamp : String
  signature : Option String
  wallet : String
  deriving Repr, DecidableEq

/-- The per-node acceptance filter of `queryShards` (lines 130-171):
`Type` must be delta/snapshot/identity; `Wallet` non-empty and equal to
the queried address case-insensitively; `Signature` present with
non-empty trimmed value; delta/snapshot additionally need a `Version`
that `parseInt`s to an integer at least 1 (identity gets version 0). -/
def acceptNode (walletAddress : String) (node : TxNode) : Option ShardInfo :=
  -- An absent tag behaves exactly like the empty string in every check of
  -- the source (strict string comparisons and JS truthiness), so lookups
  -- are collapsed with `getD ""`.
  let rawType := (tagLast node.tags "Type").getD ""
  if rawType = "delta" ∨ rawType = "snapshot" ∨ rawType = "identity" then
    let wallet := (tagLast node.tags "Wallet").getD ""
    if wallet = "" ∨ jsToLower wallet ≠ jsToLower walletAddress then none
    else
      let rawSignature := ((tagLast node.tags "Signature").map jsTrim).getD ""
      let timestamp := (tagLast node.tags "Timestamp").getD ""
      if rawType = "delta" ∨ rawType = "snapshot" then
        let rawVersion := (tagLast node.tags "Version").getD ""
        if rawVersion = "" then none
        else
          match jsParseInt rawVersion with
          | none => none
          | some v =>
            if v < 1 then none
            else if rawSignature.length > 0 then
              some { txId := node.id, version := v,
                     type := if rawType = "delta" then .delta else .snapshot,
                     timestamp := timestamp, signature := some rawSignature,
                     wallet := wallet }
            else none
      else
        if rawSignature.length > 0 then
          some { txId := node.id, version := 0, type := .identity,
                 timestamp := timestamp, signature := some rawSignature,
                 wallet := wallet }
        else none
  else none

/-- The per-page edge loop of `queryShards` (lines 126-172): every node id
is recorded in the seen set first; already-seen ids are skipped; accepted
nodes are appended to the result accumulator in encounter order. -/
def processEdges (w : String) : List GqlEdge → List String → List ShardInfo →
    List String × List ShardInfo
  | [], seen, acc => (seen, acc)
  | e :: rest, seen, acc =>
      if e.node.id ∈ seen then processEdges w rest seen acc
      else
        match acceptNode w e.node with
        | some s => processEdges w rest (e.node.id :: seen) (acc ++ [s])
        | none => processEdges w rest (e.node.id :: seen) acc

/-- `transactions?.edges ?? []`. -/
def respEdges (r : GqlResp) : List GqlEdge :=
  ((r.dataTransactions.bind GqlTransactions.edges).getD [])

/-- `transactions?.pageInfo?.hasNextPage === true`. -/
def respHasNext (r : GqlResp) : Bool :=
  ((r.dataTransactions.bind GqlTransactions.pageInfo).bind id) == some true

/-- `json.errors && json.errors.length > 0`: the errors array is present
and non-empty (a present-but-empty array does not count, as in the
source's truthiness check). -/
def gqlErrorsNonempty (r : GqlResp) : Bool :=
  match r.errors with
  | some (_ :: _) => true
  | _ => false

/-- The error `queryShards` raises on a GraphQL-level errors array. -/
def gqlErrorsMsg (r : GqlResp) : String :=
  "Arweave GraphQL returned errors: " ++
    joinSep "; " ((r.errors.getD []).map (fun x => x.getD "unknown"))

/-- The pagination loop of `queryShards`, before the final sort.  `fuel`
counts the remaining page requests out of `GQL_MAX_PAGES = 1000`; the
1001st request raises the pagination error.  A GraphQL-level error list
in the first parsed body aborts the whole query (no endpoint retry).
The loop continues to the next page only when `hasNextPage` is `true`
and the last edge's cursor is a non-empty string. -/
def qsLoop (w : String) (oracle : Nat → List (String × GqlOutcome)) :
    Nat → Nat → List String → List ShardInfo → Except String (List ShardInfo)
  | 0, _, _, _ => .error "Arweave GraphQL pagination exceeded 1000 pages."
  | fuel + 1, page, seen, acc =>
      match gqlRequest (oracle page) with
      | .error e => .error e
      | .ok r =>
          if gqlErrorsNonempty r then .error (gqlErrorsMsg r)
          else if respEdges r = [] then .ok acc
          else if respHasNext r = true ∧
              ((((respEdges r).getLast?).map (·.cursor)).getD "" ≠ "") then
            qsLoop w oracle fuel (page + 1)
              (processEdges w (respEdges r) seen acc).1
              (processEdges w (respEdges r) seen acc).2
          else .ok (processEdges w (respEdges r) seen acc).2

/-- Unfolding `qsLoop` at exhausted fuel. -/
theorem qsLoop_zero (w : String) (oracle : Nat → List (String × GqlOutcome))
    (page : Nat) (seen : List String) (acc : List ShardInfo) :
    qsLoop w oracle 0 page seen acc =
      .error "Arweave GraphQL pagination exceeded 1000 pages." := rfl

/-- Unfolding `qsLoop` at positive fuel. -/
theorem qsLoop_succ (w : String) (oracle : Nat → List (String × GqlOutcome))
    (fuel page : Nat) (seen : List String) (acc : List ShardInfo) :
    qsLoop w oracle (fuel + 1) page seen acc =
      match gqlRequest (oracle page) with
      | .error e => .error e
      | .ok r =>
          if gqlErrorsNonempty r then .error (gqlErrorsMsg r)
          else if respEdges r = [] then .ok acc
          else if respHasNext r = true ∧
              ((((respEdges r).getLast?).map (·.cursor)).getD "" ≠ "") then
            qsLoop w oracle fuel (page + 1)
              (processEdges w (respEdges r) seen acc).1
              (processEdges w (respEdges r) seen acc).2
          else .ok (processEdges w (respEdges r) seen acc).2 := rfl

/-- `queryShards` up to, but not including, the final sort: the accepted
shard infos in encounter order. -/
def queryShardsPre (w : String) (oracle : Nat → List (String × GqlOutcome)) :
    Except String (List ShardInfo) :=
  qsLoop w oracle 1000 0 [] []

/-- Stable insertion of a shard info into a version-sorted list: the new
element goes before the first element of version not below its own, hence
before later-encountered equals. -/
def insertShard (x : ShardInfo) : List ShardInfo → List ShardInfo
  | [] => [x]
  | y :: ys =>
      if x.version ≤ y.version then x :: y :: ys
      else y :: insertShard x ys

/-- `shards.sort((a, b) => a.version - b.version)`: a stable sort by
version ascending (JavaScript `Array.prototype.sort` is stable). -/
def sortShards (l : List ShardInfo) : List ShardInfo :=
  l.foldr insertShard []

/-- `queryShards(walletAddress)` (lines 60-183): paginate, filter,
deduplicate, then sort by version ascending. -/
def queryShards (w : String) (oracle : Nat → List (String × GqlOutcome)) :
    Except String (List ShardInfo) :=
  (queryShardsPre w oracle).map sortShards

/-! ### `downloadShard` (lines 400-438) -/

/-- Outcome of one `fetch` of a data endpoint: network failure, or a
response with `ok` flag, status text, optional `Content-Length` header
and body bytes. -/
inductive FetchOutcome where
  | netErr (msg : String)
  | resp (ok : Bool) (statusText : String) (contentLength : Option String)
      (body : List Nat)
  deriving Repr, DecidableEq

/-- The `Content-Length` pre-check: with a byte cap in force, a header
that parses to a finite number strictly above the cap rejects the
response before the body is read. -/
def headerRejects (maxBytes : Option Int) (contentLength : Option String) : Bool :=
  match maxBytes, contentLength with
  | some m, some cl =>
      match jsParseInt cl with
      | some d => decide (d > m)
      | none => false
  | _, _ => false

/-- The post-read check: actual body longer than the cap. -/
def bodyRejects (maxBytes : Option Int) (body : List Nat) : Bool :=
  match maxBytes with
  | some m => decide ((body.length : Int) > m)
  | none => false

/-- The endpoint loop of `downloadShard`.  `i` is the index of the next
endpoint; `reads` collects the indices whose body was actually read
(`res.arrayBuffer()` reached).  Returns the result and the read log. -/
def dlGo (txId : String) (maxBytes : Option Int) :
    List (String × FetchOutcome) → Nat → List String → List Nat →
    Except String (List Nat) × List Nat
  | [], _, errs, reads =>
      (.error ("Arweave download failed for " ++ txId ++
        " across all gateways: " ++ joinSep " | " errs), reads)
  | (ep, o) :: rest, i, errs, reads =>
      match o with
      | .netErr msg => dlGo txId maxBytes rest (i + 1) (errs ++ [ep ++ ": " ++ msg]) reads
      | .resp ok statusText contentLength body =>
          if ok = false then
            dlGo txId maxBytes rest (i + 1) (errs ++ [ep ++ ": " ++ statusText]) reads
          else if headerRejects maxBytes contentLength then
            dlGo txId maxBytes rest (i + 1)
              (errs ++ [ep ++ ": blob too large (header)"]) reads
          else
            let reads' := reads ++ [i]
            if bodyRejects maxBytes body then
              dlGo txId maxBytes rest (i + 1)
                (errs ++ [ep ++ ": blob too large (body)"]) reads'
            else (.ok body, reads')

/-- `downloadShard(txId, maxBytes)`: try each data endpoint in order; an
endpoint is rejected on network error, non-2xx status, a `Content-Length`
header above the cap (before reading the body), or an actual body above
the cap (after reading it); the first surviving body is returned;
exhaustion raises the aggregated error. -/
def downloadShard (txId : String) (maxBytes : Option Int)
    (attempts : List (String × FetchOutcome)) :
    Except String (List Nat) × List Nat :=
  dlGo txId maxBytes attempts 0 [] []

/-! ## Store lemmas -/

/-- Distributes a key-preserving conditional update over the key filter. -/
theorem filter_map_update (l : List FactRow) (k : String) (g : FactRow → FactRow)
    (hg : ∀ r, (g r).key = r.key) :
    (l.map (fun r => if r.key == k then g r else r)).filter (fun r => r.key == k) =
      (l.filter (fun r => r.key == k)).map g := by
  induction l with
  | nil => rfl
  | cons a t ih =>
      by_cases h : a.key = k
      · simp only [List.map_cons, List.filter_cons, h, beq_self_eq_true, if_true,
          hg, List.map_cons, ih]
      · have hb : (a.key == k) = false := by simp [h]
        simp only [List.map_cons, List.filter_cons, hb, if_false, Bool.false_eq_true,
          ite_false, ih]

/-- With pairwise-distinct keys, the key filter returns exactly the one
matching row. -/
theorem filter_key_unique (l : List FactRow) (k : String) (r₀ : FactRow)
    (h : (l.map FactRow.key).Nodup) (hr : r₀ ∈ l) (hk : r₀.key = k) :
    l.filter (fun r => r.key == k) = [r₀] := by
  induction l with
  | nil => cases hr
  | cons a t ih =>
      have hnd := h
      rw [List.map_cons, List.nodup_cons] at hnd
      by_cases hak : a.key = k
      · have har : a = r₀ := by
          rcases List.mem_cons.mp hr with h1 | h1
          · exact h1.symm
          · exact absurd (hak.trans hk.symm ▸ List.mem_map_of_mem FactRow.key h1)
              (by rw [hak, ← hk] at hnd ⊢; exact hnd.1)
        have ht : t.filter (fun r => r.key == k) = [] := by
          apply List.filter_eq_nil_iff.mpr
          intro r hrt
          simp only [beq_iff_eq]
          intro hrk
          exact hnd.1 (hak.trans hrk.symm ▸ List.mem_map_of_mem FactRow.key hrt)
        simp [List.filter_cons, hak, ht, har, hk]
      · have hb : (a.key == k) = false := by simp [hak]
        have hrt : r₀ ∈ t := by
          rcases List.mem_cons.mp hr with h1 | h1
          · exact absurd (h1 ▸ hk) hak
          · exact h1
        simp only [List.filter_cons, hb, Bool.false_eq_true, ite_false]
        exact ih hnd.2 hrt

/-- A list whose elements all satisfy the predicate is its own filter. -/
theorem filter_eq_self_of_all {α : Type} (l : List α) (p : α → Bool)
    (h : ∀ a ∈ l, p a = true) : l.filter p = l :=
  List.filter_eq_self.mpr h

/-- `C4`: for every fact `f`, `upsert_fact(f)` inserts or replaces the facts
row identified by `f.key`, leaves that row with `dirty = 1` and all data
columns replaced by the new fact, and deletes any `pending_deletes` row
with the same key; the whole call is one transition of the store model
(meta and imports untouched). -/
theorem claim_C4_upsert_fact (s : Store) (f : Fact)
    (hkeys : (s.facts.map FactRow.key).Nodup) :
    ((upsertFact s f).facts.filter (fun r => r.key == f.key)).length = 1
    ∧ (∀ r ∈ (upsertFact s f).facts, r.key = f.key →
        r.dirty = 1 ∧ r.id = f.id ∧ r.scope = f.scope ∧ r.value = f.value ∧
        r.tags = stringifyTags f.tags ∧ r.confidence = f.confidence ∧
        r.source_session = f.source_session ∧ r.last_confirmed = f.last_confirmed ∧
        r.access_count = f.access_count)
    ∧ (upsertFact s f).pending.filter (fun p => p.1 == f.key) = []
    ∧ (upsertFact s f).meta = s.meta
    ∧ (upsertFact s f).imports = s.imports := by
  have hpend : (s.pending.filter (fun p => !(p.1 == f.key))).filter
      (fun p => p.1 == f.key) = [] := by
    apply List.filter_eq_nil_iff.mpr
    intro p hp hcontra
    have := (List.mem_filter.mp hp).2
    rw [hcontra] at this
    exact absurd this (by simp)
  unfold upsertFact
  by_cases hany : s.facts.any (fun r => r.key == f.key) = true
  · simp only [hany, if_true]
    obtain ⟨r₀, hr₀, hk₀⟩ := List.any_eq_true.mp hany
    have hk₀' : r₀.key = f.key := by simpa using hk₀
    refine ⟨?_, ?_, hpend, trivial, trivial⟩
    · rw [filter_map_update s.facts f.key
          (fun r => { r with
            id := f.id
            scope := f.scope
            value := f.value
            tags := stringifyTags f.tags
            confidence := f.confidence
            source_session := f.source_session
            last_confirmed := f.last_confirmed
            access_count := f.access_count
            dirty := 1 }) (fun r => rfl),
        filter_key_unique _ _ r₀ hkeys hr₀ hk₀']
      rfl
    · intro r hr hrk
      obtain ⟨r₁, hr₁, hmap⟩ := List.mem_map.mp hr
      by_cases h1 : r₁.key = f.key
      · rw [if_pos (by simpa using h1)] at hmap
        rw [← hmap]
        exact ⟨rfl, rfl, rfl, rfl, rfl, rfl, rfl, rfl, rfl⟩
      · rw [if_neg (by simpa using h1)] at hmap
        exact absurd (hmap ▸ hrk) h1
  · simp only [hany, if_false, Bool.false_eq_true]
    have hnone : ∀ r ∈ s.facts, ¬ (r.key = f.key) := by
      intro r hr hc
      exact hany (List.any_eq_true.mpr ⟨r, hr, by simpa using hc⟩)
    have hfilt : s.facts.filter (fun r => r.key == f.key) = [] :=
      List.filter_eq_nil_iff.mpr (fun r hr hc => hnone r hr (by simpa using hc))
    refine ⟨?_, ?_, hpend, trivial, trivial⟩
    · rw [List.filter_append, hfilt]
      simp [List.filter_cons]
    · intro r hr hrk
      rcases List.mem_append.mp hr with h1 | h1
      · exact absurd hrk (hnone r h1)
      · have : r = {
          id := f.id, scope := f.scope, key := f.key, value := f.value,
          tags := stringifyTags f.tags, confidence := f.confidence,
          source_session := f.source_session, created := f.created,
          last_confirmed := f.last_confirmed, access_count := f.access_count,
          dirty := 1 } := by simpa using h1
        rw [this]
        exact ⟨rfl, rfl, rfl, rfl, rfl, rfl, rfl, rfl, rfl⟩

/-- Witness for `C4` at a concrete store and fact. -/
theorem claim_C4_upsert_fact_witness :
    ((upsertFact
        ⟨[⟨"i1", "global", "global:auth", "JWT", "[]", 1, none, "t0", "t0", 0, 0⟩],
          [("global:auth", "t0")], [], []⟩
        ⟨"i2", "global", "global:auth", "OAuth", ["auth"], 1, none, "t1", "t1", 0⟩).facts.filter
      (fun r => r.key == "global:auth")).length = 1 :=
  (claim_C4_upsert_fact
    ⟨[⟨"i1", "global", "global:auth", "JWT", "[]", 1, none, "t0", "t0", 0, 0⟩],
      [("global:auth", "t0")], [], []⟩
    ⟨"i2", "global", "global:auth", "OAuth", ["auth"], 1, none, "t1", "t1", 0⟩
    (by decide)).1

/-- `C5`: upserting over an existing key leaves the stored `created`
column unchanged; every other data column is replaced and `dirty` set.
The single row returned by the key filter is exactly the old row with
`id, scope, value, tags, confidence, source_session, last_confirmed,
access_count, dirty` replaced (so `created` and `key` are kept). -/
theorem claim_C5_created_immutable (s : Store) (f : Fact) (r₀ : FactRow)
    (hkeys : (s.facts.map FactRow.key).Nodup)
    (hr : r₀ ∈ s.facts) (hk : r₀.key = f.key) :
    (upsertFact s f).facts.filter (fun r => r.key == f.key) =
      [{ r₀ with
          id := f.id, scope := f.scope, value := f.value,
          tags := stringifyTags f.tags, confidence := f.confidence,
          source_session := f.source_session, last_confirmed := f.last_confirmed,
          access_count := f.access_count, dirty := 1 }] := by
  have hany : s.facts.any (fun r => r.key == f.key) = true :=
    List.any_eq_true.mpr ⟨r₀, hr, by simpa using hk⟩
  unfold upsertFact
  simp only [hany, if_true]
  rw [filter_map_update s.facts f.key
      (fun r => { r with
        id := f.id
        scope := f.scope
        value := f.value
        tags := stringifyTags f.tags
        confidence := f.confidence
        source_session := f.source_session
        last_confirmed := f.last_confirmed
        access_count := f.access_count
        dirty := 1 }) (fun r => rfl),
    filter_key_unique _ _ r₀ hkeys hr hk]
  simp only [List.map_cons, List.map_nil]

/-- Witness for `C5`: the `created` column survives an overwrite. -/
theorem claim_C5_created_immutable_witness :
    (upsertFact
        ⟨[⟨"i1", "global", "global:auth", "JWT", "[]", 1, none, "t0", "t5", 3, 0⟩],
          [], [], []⟩
        ⟨"i2", "global", "global:auth", "OAuth", ["auth"], 1, none, "t9", "t9", 0⟩).facts.filter
      (fun r => r.key == "global:auth") =
      [⟨"i2", "global", "global:auth", "OAuth", stringifyTags ["auth"], 1, none,
        "t0", "t9", 0, 1⟩] :=
  claim_C5_created_immutable
    ⟨[⟨"i1", "global", "global:auth", "JWT", "[]", 1, none, "t0", "t5", 3, 0⟩],
      [], [], []⟩
    ⟨"i2", "global", "global:auth", "OAuth", ["auth"], 1, none, "t9", "t9", 0⟩
    ⟨"i1", "global", "global:auth", "JWT", "[]", 1, none, "t0", "t5", 3, 0⟩
    (by decide) (by decide) rfl

/-- `deleteFact` when a row with the key exists: the explicit result. -/
theorem deleteFact_pos_eq (s : Store) (k n : String)
    (h : s.facts.any (fun r => r.key == k) = true) :
    deleteFact s k n = { s with
      facts := s.facts.filter (fun r => !(r.key == k))
      pending := s.pending.filter (fun p => !(p.1 == k)) ++ [(k, n)] } := by
  simp only [deleteFact, h, if_true]

/-- `deleteFact` when no row with the key exists is a full no-op. -/
theorem deleteFact_no_match (t : Store) (k n : String)
    (h : ∀ r ∈ t.facts, r.key ≠ k) : deleteFact t k n = t := by
  have hany : t.facts.any (fun r => r.key == k) = false := by
    rw [List.any_eq_false]
    intro r hr
    simpa using h r hr
  have hfilt : t.facts.filter (fun r => !(r.key == k)) = t.facts :=
    filter_eq_self_of_all _ _ (fun r hr => by simpa using h r hr)
  simp only [deleteFact, hany, Bool.false_eq_true, if_false, hfilt]

/-- The facts list after `deleteFact` never holds the deleted key. -/
theorem deleteFact_facts (s : Store) (k n : String) :
    (deleteFact s k n).facts = s.facts.filter (fun r => !(r.key == k)) := by
  simp only [deleteFact]
  split <;> rfl

/-- `C6`: `delete_fact` is idempotent (a second delete of the same key is
a no-op on the whole store); deleting an absent key changes nothing; and
deleting a present key removes every row with that key and leaves exactly
the tombstone `(key, now)` in `pending_deletes`. -/
theorem claim_C6_delete_fact (s : Store) (k n₁ n₂ : String) :
    deleteFact (deleteFact s k n₁) k n₂ = deleteFact s k n₁
    ∧ ((∀ r ∈ s.facts, r.key ≠ k) → deleteFact s k n₁ = s)
    ∧ ((∃ r ∈ s.facts, r.key = k) →
        (∀ r ∈ (deleteFact s k n₁).facts, r.key ≠ k) ∧
        (deleteFact s k n₁).pending.filter (fun p => p.1 == k) = [(k, n₁)]) := by
  have hnomatch : ∀ r ∈ (deleteFact s k n₁).facts, r.key ≠ k := by
    intro r hr
    rw [deleteFact_facts] at hr
    have := (List.mem_filter.mp hr).2
    simpa using this
  refine ⟨deleteFact_no_match _ _ _ hnomatch, deleteFact_no_match _ _ _, ?_⟩
  intro ⟨r₀, hr₀, hk₀⟩
  refine ⟨hnomatch, ?_⟩
  have hany : s.facts.any (fun r => r.key == k) = true :=
    List.any_eq_true.mpr ⟨r₀, hr₀, by simpa using hk₀⟩
  rw [deleteFact_pos_eq s k n₁ hany]
  simp only [List.filter_append]
  have h1 : (s.pending.filter (fun p => !(p.1 == k))).filter
      (fun p => p.1 == k) = [] := by
    apply List.filter_eq_nil_iff.mpr
    intro p hp hc
    have := (List.mem_filter.mp hp).2
    rw [hc] at this
    exact absurd this (by simp)
  rw [h1]
  simp [List.filter_cons]

/-- Witness for `C6` at a concrete store holding the key. -/
theorem claim_C6_delete_fact_witness :
    (∀ r ∈ (deleteFact
        ⟨[⟨"i1", "global", "k", "v", "[]", 1, none, "t0", "t0", 0, 1⟩], [], [], []⟩
        "k" "now1").facts, r.key ≠ "k") ∧
    (deleteFact
        ⟨[⟨"i1", "global", "k", "v", "[]", 1, none, "t0", "t0", 0, 1⟩], [], [], []⟩
        "k" "now1").pending.filter (fun p => p.1 == "k") = [("k", "now1")] :=
  (claim_C6_delete_fact
    ⟨[⟨"i1", "global", "k", "v", "[]", 1, none, "t0", "t0", 0, 1⟩], [], [], []⟩
    "k" "now1" "now2").2.2
    ⟨⟨"i1", "global", "k", "v", "[]", 1, none, "t0", "t0", 0, 1⟩, by decide, rfl⟩

/-! ## Share redemption (`src/cli/sync.ts`, `src/unnamed/part_000`) -/

/-- `C10`: `saveSharedConversationImport` is a plain `INSERT` into a table
whose primary key is `share_id`: with the share id already present the
call fails with the uniqueness violation (it neither replaces nor ignores
the row); with the id absent it appends exactly the new row.  Redemption
idempotence therefore rests on the caller checking
`hasSharedConversationImport` first. -/
theorem claim_C10_save_is_plain_insert (tbl : List ImportRow) (e : ImportEntry)
    (now : String) :
    (hasSharedConversationImport tbl e.shareId = true →
      saveSharedConversationImport tbl e now =
        .error "UNIQUE constraint failed: shared_conversation_imports.share_id")
    ∧ (hasSharedConversationImport tbl e.shareId = false →
      saveSharedConversationImport tbl e now = .ok (tbl ++ [importRowOf e now])) := by
  constructor
  · intro h
    simp [saveSharedConversationImport, h]
  · intro h
    simp [saveSharedConversationImport, h]

/-- Witness for `C10`: a second plain insert of the same share id fails. -/
theorem claim_C10_save_is_plain_insert_witness :
    saveSharedConversationImport
      [⟨"sid-1", "tx-1", "c-1", "cursor", "p", 1, "t0", "x"⟩]
      ⟨"sid-1", "tx-2", ⟨"c-2", "cursor", "p", [], "t1", "t1"⟩⟩ "t2" =
      .error "UNIQUE constraint failed: shared_conversation_imports.share_id" :=
  (claim_C10_save_is_plain_insert
    [⟨"sid-1", "tx-1", "c-1", "cursor", "p", 1, "t0", "x"⟩]
    ⟨"sid-1", "tx-2", ⟨"c-2", "cursor", "p", [], "t1", "t1"⟩⟩ "t2").1 (by decide)

/-- `C9`: share redemption is idempotent per share id: a first redemption
with share id not yet in the ledger inserts exactly one row keyed by that
id and reports "Conversation imported."; running the command again with
the same share id leaves the ledger unchanged and reports
"Share already imported." instead of writing a second row. -/
theorem claim_C9_redeem_idempotent (tbl : List ImportRow) (sid tx₁ tx₂ : String)
    (c₁ c₂ : Conversation) (n₁ n₂ : String)
    (h : hasSharedConversationImport tbl sid = false) :
    ∃ tbl₁,
      redeemStep tbl sid tx₁ c₁ n₁ = .ok (tbl₁, "Conversation imported.")
      ∧ (tbl₁.filter (fun r => r.share_id == sid)).length = 1
      ∧ redeemStep tbl₁ sid tx₂ c₂ n₂ = .ok (tbl₁, "Share already imported.") := by
  refine ⟨tbl ++ [importRowOf ⟨sid, tx₁, c₁⟩ n₁], ?_, ?_, ?_⟩
  · simp [redeemStep, h, saveSharedConversationImport, Except.map]
  · rw [List.filter_append]
    have h0 : tbl.filter (fun r => r.share_id == sid) = [] := by
      apply List.filter_eq_nil_iff.mpr
      intro r hr hc
      have : hasSharedConversationImport tbl sid = true :=
        List.any_eq_true.mpr ⟨r, hr, hc⟩
      rw [h] at this
      cases this
    simp [h0, importRowOf]
  · have h2 : hasSharedConversationImport
        (tbl ++ [importRowOf ⟨sid, tx₁, c₁⟩ n₁]) sid = true := by
      apply List.any_eq_true.mpr
      exact ⟨importRowOf ⟨sid, tx₁, c₁⟩ n₁, by simp, by simp [importRowOf]⟩
    simp [redeemStep, h2]

/-- Witness for `C9` starting from an empty ledger. -/
theorem claim_C9_redeem_idempotent_witness :
    ∃ tbl₁,
      redeemStep [] "sid-1" "tx-1" ⟨"c-1", "cursor", "p", [], "t0", "t0"⟩ "t1" =
        .ok (tbl₁, "Conversation imported.")
      ∧ (tbl₁.filter (fun r => r.share_id == "sid-1")).length = 1
      ∧ redeemStep tbl₁ "sid-1" "tx-1" ⟨"c-1", "cursor", "p", [], "t0", "t0"⟩ "t2" =
        .ok (tbl₁, "Share already imported.") :=
  claim_C9_redeem_idempotent [] "sid-1" "tx-1" "tx-1"
    ⟨"c-1", "cursor", "p", [], "t0", "t0"⟩ ⟨"c-1", "cursor", "p", [], "t0", "t0"⟩
    "t1" "t2" (by decide)

/-! ## Push lemmas and claims C1, C3 -/

/-- `setMeta` only touches the meta table. -/
theorem setMeta_facts (s : Store) (k v : String) : (setMeta s k v).facts = s.facts := by
  simp only [setMeta]
  split <;> rfl

theorem setMeta_pending (s : Store) (k v : String) :
    (setMeta s k v).pending = s.pending := by
  simp only [setMeta]
  split <;> rfl

/-- After `clearDirtyState` no row is dirty. -/
theorem getDirtyRows_clear (s : Store) : getDirtyRows (clearDirtyState s) = [] := by
  apply List.filter_eq_nil_iff.mpr
  intro r hr hc
  obtain ⟨r₀, _, hmap⟩ := List.mem_map.mp hr
  rw [← hmap] at hc
  exact absurd hc (by simp)

/-- After `clearDirtyState` no delete is pending. -/
theorem getPendingDeletes_clear (s : Store) :
    getPendingDeletes (clearDirtyState s) = [] := rfl

/-- A clean store makes the push tick return immediately. -/
theorem syncDirtyFacts_of_clean (s : Store) (seed : String) (ok : Nat → Bool)
    (h1 : getDirtyRows s = []) (h2 : getPendingDeletes s = []) :
    syncDirtyFacts s seed ok = (s, []) := by
  simp [syncDirtyFacts, h1, h2]

/-- With every upload succeeding, the loop never aborts. -/
theorem runUploads_all_ok (ok : Nat → Bool) (hok : ∀ i, ok i = true) :
    ∀ (shards : List Shard) (i : Nat) (lastV : Option Int),
      ∃ ups fin, runUploads ok i shards lastV = (ups, some fin) := by
  intro shards
  induction shards with
  | nil => exact fun i lastV => ⟨[], lastV, rfl⟩
  | cons sh rest ih =>
      intro i lastV
      obtain ⟨ups, fin, hrec⟩ := ih (i + 1) sh.shard_version
      exact ⟨sh.shard_version :: ups, fin, by simp [runUploads, hok i, hrec]⟩

/-- The store a push tick leaves behind is always clean when every upload
succeeded. -/
theorem sync_leaves_clean (s : Store) (seed : String) (ok : Nat → Bool)
    (hok : ∀ i, ok i = true) :
    getDirtyRows (syncDirtyFacts s seed ok).1 = []
    ∧ getPendingDeletes (syncDirtyFacts s seed ok).1 = [] := by
  by_cases hempty : ((getDirtyRows s).isEmpty && (getPendingDeletes s).isEmpty) = true
  · have h1 : getDirtyRows s = [] := by
      have := (Bool.and_eq_true _ _).mp hempty
      exact List.isEmpty_iff.mp this.1
    have h2 : getPendingDeletes s = [] := by
      have := (Bool.and_eq_true _ _).mp hempty
      exact List.isEmpty_iff.mp this.2
    rw [syncDirtyFacts_of_clean s seed ok h1 h2]
    exact ⟨h1, h2⟩
  · obtain ⟨ups, fin, hrun⟩ :=
      runUploads_all_ok ok hok (pushShardsOf s seed) 0 (currentVersionOf s)
    have hsync : (syncDirtyFacts s seed ok).1 =
        setMeta (setMeta (clearDirtyState s) "current_version" (jsNumToString fin))
          "last_pushed_version" (jsNumToString fin) := by
      simp only [syncDirtyFacts, hempty, Bool.false_eq_true, if_false, hrun]
    rw [hsync]
    constructor
    · simp only [getDirtyRows, setMeta_facts]
      have := getDirtyRows_clear s
      simpa [getDirtyRows] using this
    · simp only [getPendingDeletes, setMeta_pending]
      have := getPendingDeletes_clear s
      simpa [getPendingDeletes] using this

/-- `C3`: a push tick that finds no dirty facts and no pending deletes
uploads zero shards and leaves the whole store (meta included)
unchanged; consequently, after a fully successful push, a second push
with no mutations in between uploads nothing and changes nothing. -/
theorem claim_C3_push_idempotent (s : Store) (seed seed₂ : String)
    (ok ok₂ : Nat → Bool) :
    (getDirtyRows s = [] → getPendingDeletes s = [] →
      syncDirtyFacts s seed ok = (s, []))
    ∧ ((∀ i, ok i = true) →
      syncDirtyFacts (syncDirtyFacts s seed ok).1 seed₂ ok₂ =
        ((syncDirtyFacts s seed ok).1, [])) := by
  constructor
  · exact fun h1 h2 => syncDirtyFacts_of_clean s seed ok h1 h2
  · intro hok
    obtain ⟨h1, h2⟩ := sync_leaves_clean s seed ok hok
    exact syncDirtyFacts_of_clean _ seed₂ ok₂ h1 h2

/-- Witness for `C3`: one dirty fact, a successful push, then a second
push that uploads nothing. -/
theorem claim_C3_push_idempotent_witness :
    syncDirtyFacts
      (syncDirtyFacts
        ⟨[⟨"i1", "global", "k", "v", "[]", 1, none, "t0", "t0", 0, 1⟩], [], [], []⟩
        "sd" (fun _ => true)).1
      "sd2" (fun _ => true) =
      ((syncDirtyFacts
        ⟨[⟨"i1", "global", "k", "v", "[]", 1, none, "t0", "t0", 0, 1⟩], [], [], []⟩
        "sd" (fun _ => true)).1, []) :=
  (claim_C3_push_idempotent
    ⟨[⟨"i1", "global", "k", "v", "[]", 1, none, "t0", "t0", 0, 1⟩], [], [], []⟩
    "sd" "sd2" (fun _ => true) (fun _ => true)).2 (fun _ => rfl)

/-- The upload loop stops at the first failing shard: the shards before
it are the only ones uploaded and the loop reports the abort. -/
theorem runUploads_first_fail (ok : Nat → Bool) :
    ∀ (k : Nat) (shards : List Shard) (i : Nat) (lastV : Option Int),
      k < shards.length → ok (i + k) = false → (∀ j < k, ok (i + j) = true) →
      runUploads ok i shards lastV =
        ((shards.take k).map (fun sh => sh.shard_version), none) := by
  intro k
  induction k with
  | zero =>
      intro shards i lastV hk hfail _
      match shards, hk with
      | sh :: rest, _ =>
          simp only [Nat.add_zero] at hfail
          simp [runUploads, hfail]
  | succ k ih =>
      intro shards i lastV hk hfail hpre
      match shards, hk with
      | sh :: rest, hk =>
          have hok0 : ok i = true := by
            have := hpre 0 (Nat.succ_pos k)
            simpa using this
          have hrec := ih rest (i + 1) sh.shard_version
            (Nat.lt_of_succ_lt_succ hk)
            (by
              have he : i + 1 + k = i + (k + 1) := by omega
              rw [he]; exact hfail)
            (fun j hj => by
              have hj' := hpre (j + 1) (Nat.succ_lt_succ hj)
              have he : i + 1 + j = i + (j + 1) := by omega
              rw [he]; exact hj')
          simp [runUploads, hok0, hrec]

/-- `C1`: if the `k`-th shard upload of a push tick fails (all earlier
ones having succeeded), the whole push aborts: only the shards before the
failing one were uploaded, and the store — dirty flags, pending deletes,
and both `current_version` and `last_pushed_version` in meta — is exactly
the store the tick started from, so the next tick retries the entire op
set. -/
theorem claim_C1_push_abort (s : Store) (seed : String) (ok : Nat → Bool) (k : Nat)
    (hk : k < (pushShardsOf s seed).length)
    (hfail : ok k = false)
    (hpre : ∀ j < k, ok j = true) :
    syncDirtyFacts s seed ok =
      (s, ((pushShardsOf s seed).take k).map (fun sh => sh.shard_version)) := by
  have hempty : ((getDirtyRows s).isEmpty && (getPendingDeletes s).isEmpty) = false := by
    by_contra h
    have htrue : ((getDirtyRows s).isEmpty && (getPendingDeletes s).isEmpty) = true := by
      revert h
      cases ((getDirtyRows s).isEmpty && (getPendingDeletes s).isEmpty) <;> simp
    have h1 : getDirtyRows s = [] :=
      List.isEmpty_iff.mp ((Bool.and_eq_true _ _).mp htrue).1
    have h2 : getPendingDeletes s = [] :=
      List.isEmpty_iff.mp ((Bool.and_eq_true _ _).mp htrue).2
    have hnil : pushShardsOf s seed = [] := by
      simp [pushShardsOf, pushOps, h1, h2, createChunkedShards, packOps]
    rw [hnil] at hk
    exact absurd hk (by simp)
  have hrun := runUploads_first_fail ok k (pushShardsOf s seed) 0
    (currentVersionOf s) hk (by simpa using hfail) (fun j hj => by simpa using hpre j hj)
  simp only [syncDirtyFacts, hempty, Bool.false_eq_true, if_false, hrun]

/-- Witness for `C1`: the very first upload fails, nothing is uploaded and
the store is untouched. -/
theorem claim_C1_push_abort_witness :
    syncDirtyFacts
      ⟨[⟨"i1", "global", "k", "v", "[]", 1, none, "t0", "t0", 0, 1⟩], [], [], []⟩
      "sd" (fun _ => false) =
      (⟨[⟨"i1", "global", "k", "v", "[]", 1, none, "t0", "t0", 0, 1⟩], [], [], []⟩, []) := by
  have h := claim_C1_push_abort
    ⟨[⟨"i1", "global", "k", "v", "[]", 1, none, "t0", "t0", 0, 1⟩], [], [], []⟩
    "sd" (fun _ => false) 0 (by decide) rfl (fun j hj => absurd hj (Nat.not_lt_zero j))
  simpa using h

/-! ## Download cap lemmas and claim C7 -/

/-- Unfolding `dlGo` on the empty endpoint list. -/
theorem dlGo_nil (txId : String) (m? : Option Int) (i : Nat) (errs : List String)
    (reads : List Nat) :
    dlGo txId m? [] i errs reads =
      (.error ("Arweave download failed for " ++ txId ++
        " across all gateways: " ++ joinSep " | " errs), reads) := rfl

/-- Unfolding `dlGo` on a network error. -/
theorem dlGo_cons_net (txId : String) (m? : Option Int) (ep msg : String)
    (rest : List (String × FetchOutcome)) (i : Nat) (errs : List String)
    (reads : List Nat) :
    dlGo txId m? ((ep, .netErr msg) :: rest) i errs reads =
      dlGo txId m? rest (i + 1) (errs ++ [ep ++ ": " ++ msg]) reads := rfl

/-- Unfolding `dlGo` on a response. -/
theorem dlGo_cons_resp (txId : String) (m? : Option Int) (ep : String) (ok : Bool)
    (st : String) (cl : Option String) (body : List Nat)
    (rest : List (String × FetchOutcome)) (i : Nat) (errs : List String)
    (reads : List Nat) :
    dlGo txId m? ((ep, .resp ok st cl body) :: rest) i errs reads =
      if ok = false then
        dlGo txId m? rest (i + 1) (errs ++ [ep ++ ": " ++ st]) reads
      else if headerRejects m? cl then
        dlGo txId m? rest (i + 1) (errs ++ [ep ++ ": blob too large (header)"]) reads
      else if bodyRejects m? body then
        dlGo txId m? rest (i + 1) (errs ++ [ep ++ ": blob too large (body)"])
          (reads ++ [i])
      else (.ok body, reads ++ [i]) := rfl

/-- Any body the download loop returns passed the post-read size check. -/
theorem dlGo_ok_len (txId : String) (m : Int) :
    ∀ (attempts : List (String × FetchOutcome)) (i : Nat) (errs : List String)
      (reads : List Nat) (bytes : List Nat) (reads' : List Nat),
      dlGo txId (some m) attempts i errs reads = (.ok bytes, reads') →
      (bytes.length : Int) ≤ m := by
  intro attempts
  induction attempts with
  | nil =>
      intro i errs reads bytes reads' h
      rw [dlGo_nil] at h
      have := congrArg Prod.fst h
      simp at this
  | cons a rest ih =>
      intro i errs reads bytes reads' h
      obtain ⟨ep, o⟩ := a
      match o with
      | .netErr msg =>
          rw [dlGo_cons_net] at h
          exact ih _ _ _ _ _ h
      | .resp ok statusText contentLength body =>
          rw [dlGo_cons_resp] at h
          by_cases hok : ok = false
          · rw [if_pos hok] at h
            exact ih _ _ _ _ _ h
          · rw [if_neg hok] at h
            by_cases hhr : headerRejects (some m) contentLength = true
            · rw [if_pos hhr] at h
              exact ih _ _ _ _ _ h
            · rw [if_neg (by simp [hhr])] at h
              by_cases hbr : bodyRejects (some m) body = true
              · rw [if_pos hbr] at h
                exact ih _ _ _ _ _ h
              · rw [if_neg (by simp [hbr])] at h
                have hbytes : bytes = body := by
                  have := congrArg Prod.fst h
                  simpa using this.symm
                rw [hbytes]
                have : ¬ ((body.length : Int) > m) := by
                  simpa [bodyRejects] using hbr
                omega

/-- Every index the download loop adds to the read log belongs to a 2xx
response whose `Content-Length` pre-check passed. -/
theorem dlGo_reads (txId : String) (maxBytes : Option Int) :
    ∀ (attempts : List (String × FetchOutcome)) (i : Nat) (errs : List String)
      (reads : List Nat) (j : Nat),
      j ∈ (dlGo txId maxBytes attempts i errs reads).2 →
      j ∈ reads ∨ ∃ k ep st cl body, k < attempts.length ∧ j = i + k ∧
        attempts[k]? = some (ep, .resp true st cl body) ∧
        headerRejects maxBytes cl = false := by
  intro attempts
  induction attempts with
  | nil =>
      intro i errs reads j h
      simp only [dlGo] at h
      exact Or.inl h
  | cons a rest ih =>
      intro i errs reads j h
      obtain ⟨ep, o⟩ := a
      have shift : ∀ (errs' : List String) (reads' : List Nat),
          j ∈ (dlGo txId maxBytes rest (i + 1) errs' reads').2 →
          j ∈ reads' ∨ ∃ k ep' st cl body, k < (⟨ep, o⟩ :: rest : List _).length ∧
            j = i + k ∧ ((⟨ep, o⟩ :: rest : List _))[k]? = some (ep', .resp true st cl body) ∧
            headerRejects maxBytes cl = false := by
        intro errs' reads' h'
        rcases ih (i + 1) errs' reads' j h' with hl | ⟨k, ep', st, cl, body, hk, hj, hget, hhr⟩
        · exact Or.inl hl
        · refine Or.inr ⟨k + 1, ep', st, cl, body, by simpa using Nat.succ_lt_succ hk, by omega, ?_, hhr⟩
          simpa using hget
      match o with
      | .netErr msg =>
          rw [dlGo_cons_net] at h
          exact shift _ _ h
      | .resp ok statusText contentLength body =>
          rw [dlGo_cons_resp] at h
          by_cases hok : ok = false
          · rw [if_pos hok] at h
            exact shift _ _ h
          · rw [if_neg hok] at h
            have hok' : ok = true := by revert hok; cases ok <;> simp
            by_cases hhr : headerRejects maxBytes contentLength = true
            · rw [if_pos hhr] at h
              exact shift _ _ h
            · rw [if_neg hhr] at h
              have hbase : j ∈ reads ++ [i] →
                  j ∈ reads ∨ ∃ k ep' st cl body', k < (⟨ep, .resp ok statusText contentLength body⟩ :: rest : List _).length ∧
                    j = i + k ∧ ((⟨ep, .resp ok statusText contentLength body⟩ :: rest : List _))[k]? =
                      some (ep', .resp true st cl body') ∧
                    headerRejects maxBytes cl = false := by
                intro hj
                rcases List.mem_append.mp hj with hl | hr
                · exact Or.inl hl
                · refine Or.inr ⟨0, ep, statusText, contentLength, body, by simp, by simpa using List.mem_singleton.mp hr, ?_, by simpa using hhr⟩
                  simp [hok']
              by_cases hbr : bodyRejects maxBytes body = true
              · rw [if_pos hbr] at h
                rcases shift _ _ h with hl | hr
                · exact hbase hl
                · exact Or.inr hr
              · rw [if_neg hbr] at h
                exact hbase h

/-- `C7`: with a byte cap `m` in force, `downloadShard` either fails or
returns a body of at most `m` bytes; a response whose `Content-Length`
header parses to a value above `m` is rejected before its body is read
(its endpoint index never enters the read log); and an oversized actual
body is never the returned value. -/
theorem claim_C7_download_size_cap (txId : String) (m : Int)
    (attempts : List (String × FetchOutcome)) :
    (∀ bytes, (downloadShard txId (some m) attempts).1 = .ok bytes →
      (bytes.length : Int) ≤ m)
    ∧ (∀ i ep st cl body d,
        attempts[i]? = some (ep, .resp true st (some cl) body) →
        jsParseInt cl = some d → d > m →
        i ∉ (downloadShard txId (some m) attempts).2)
    ∧ (∀ body, (body.length : Int) > m →
        (downloadShard txId (some m) attempts).1 ≠ .ok body) := by
  refine ⟨?_, ?_, ?_⟩
  · intro bytes h
    exact dlGo_ok_len txId m attempts 0 [] [] bytes
      (downloadShard txId (some m) attempts).2
      (by rw [← h]; rfl)
  · intro i ep st cl body d hget hparse hgt hmem
    rcases dlGo_reads txId (some m) attempts 0 [] [] i hmem with hl | ⟨k, ep', st', cl', body', hk, hj, hget', hhr⟩
    · cases hl
    · have hki : k = i := by omega
      rw [hki, hget] at hget'
      have hcl : cl' = some cl := by
        have := Option.some.inj hget'
        have h2 := congrArg Prod.snd this
        cases h2
        rfl
      rw [hcl] at hhr
      have : headerRejects (some m) (some cl) = true := by
        simp [headerRejects, hparse, hgt]
      rw [this] at hhr
      cases hhr
  · intro body hlen hok
    have := dlGo_ok_len txId m attempts 0 [] [] body
      (downloadShard txId (some m) attempts).2 (by rw [← hok]; rfl)
    omega

/-- Witness for `C7`: a header above the cap keeps the body unread and the
download fails over to exhaustion. -/
theorem claim_C7_download_size_cap_witness :
    (0 : Nat) ∉ (downloadShard "tx" (some 10)
      [("e1", .resp true "OK" (some "99") [1, 2, 3])]).2 :=
  (claim_C7_download_size_cap "tx" 10
    [("e1", .resp true "OK" (some "99") [1, 2, 3])]).2.1
    0 "e1" "OK" "99" [1, 2, 3] 99 rfl (by decide) (by decide)

/-! ## Gateway failover lemmas and claim C8 -/

/-- An endpoint outcome that `gqlRequest` catches and skips: a network or
JSON error, or a non-2xx status.  A parsed body is returned even when it
carries GraphQL-level errors. -/
def isTransientGql : GqlOutcome → Bool
  | .ok _ => false
  | _ => true

/-- The reason string `gqlRequest` records for a skipped endpoint. -/
def gqlFailMsg (p : String × GqlOutcome) : String :=
  match p.2 with
  | .netErr msg => p.1 ++ ": " ++ msg
  | .httpErr status statusText => p.1 ++ ": " ++ toString status ++ " " ++ statusText
  | .ok _ => ""

/-- Skipped endpoints only extend the reason accumulator. -/
theorem gqlGo_skip (pre : List (String × GqlOutcome))
    (hpre : ∀ a ∈ pre, isTransientGql a.2 = true) :
    ∀ (suf : List (String × GqlOutcome)) (errs : List String),
      gqlGo (pre ++ suf) errs = gqlGo suf (errs ++ pre.map gqlFailMsg) := by
  induction pre with
  | nil => intro suf errs; simp
  | cons a rest ih =>
      intro suf errs
      obtain ⟨ep, o⟩ := a
      match o with
      | .netErr msg =>
          rw [List.cons_append]
          show gqlGo (rest ++ suf) (errs ++ [ep ++ ": " ++ msg]) = _
          rw [ih (fun b hb => hpre b (List.mem_cons_of_mem _ hb)) suf]
          simp [gqlFailMsg]
      | .httpErr status statusText =>
          rw [List.cons_append]
          show gqlGo (rest ++ suf) (errs ++ [ep ++ ": " ++ toString status ++ " " ++ statusText]) = _
          rw [ih (fun b hb => hpre b (List.mem_cons_of_mem _ hb)) suf]
          simp [gqlFailMsg]
      | .ok r =>
          exact absurd (hpre (ep, .ok r) (List.mem_cons_self _ _)) (by simp [isTransientGql])

/-- `C8` counterexample: the first GraphQL endpoint answers 2xx with a
GraphQL-level `errors` array and the second endpoint would answer
cleanly, yet `queryShards` fails instead of retrying the next endpoint —
the very same oracle restricted to the second endpoint succeeds.  This
refutes the claim that a GraphQL-level errors response is retried on the
next configured endpoint with an aggregated error only at exhaustion. -/
theorem claim_C8_counterexample :
    queryShards "w"
      (fun _ => [("e1", .ok ⟨none, some [some "boom"]⟩),
                 ("e2", .ok ⟨some ⟨some (some false), some []⟩, none⟩)]) =
      .error "Arweave GraphQL returned errors: boom"
    ∧ queryShards "w"
      (fun _ => [("e2", .ok ⟨some ⟨some (some false), some []⟩, none⟩)]) =
      .ok [] := by
  constructor <;> rfl

/-- `C8` (amended): `gqlRequest` retries the next endpoint on a network
error, JSON failure or non-2xx status, and surfaces the aggregated
per-endpoint reason string only when every endpoint failed that way; but
a 2xx body carrying GraphQL-level errors is returned to `queryShards`,
which fails the whole query without trying further endpoints. -/
theorem claim_C8_failover_amended :
    (∀ (pre suf : List (String × GqlOutcome)) (ep : String) (r : GqlResp),
      (∀ a ∈ pre, isTransientGql a.2 = true) →
      gqlRequest (pre ++ (ep, GqlOutcome.ok r) :: suf) = .ok r)
    ∧ (∀ atts : List (String × GqlOutcome),
      (∀ a ∈ atts, isTransientGql a.2 = true) →
      gqlRequest atts = .error
        ("Arweave GraphQL request failed across all gateways: " ++
          joinSep " | " (atts.map gqlFailMsg)))
    ∧ (∀ (w : String) (oracle : Nat → List (String × GqlOutcome)) (r : GqlResp)
        (m : Option String) (ms : List (Option String)),
      gqlRequest (oracle 0) = .ok r → r.errors = some (m :: ms) →
      queryShards w oracle = .error
        ("Arweave GraphQL returned errors: " ++
          joinSep "; " ((m :: ms).map (fun x => x.getD "unknown")))) := by
  refine ⟨?_, ?_, ?_⟩
  · intro pre suf ep r hpre
    unfold gqlRequest
    rw [gqlGo_skip pre hpre]
    rfl
  · intro atts hatts
    unfold gqlRequest
    have := gqlGo_skip atts hatts [] []
    rw [List.append_nil] at this
    rw [this]
    simp [gqlGo]
  · intro w oracle r m ms hreq herr
    obtain ⟨dt, errs⟩ := r
    have herr2 : errs = some (m :: ms) := herr
    subst herr2
    unfold queryShards queryShardsPre
    rw [show (1000 : Nat) = 999 + 1 from rfl, qsLoop_succ, hreq]
    rfl

/-- Witness for the amended `C8`: transparent failover past a dead
endpoint, and a GraphQL-errors body failing the query. -/
theorem claim_C8_failover_amended_witness :
    gqlRequest [("e1", GqlOutcome.netErr "down"),
      ("e2", GqlOutcome.ok ⟨none, none⟩)] = .ok ⟨none, none⟩
    ∧ queryShards "w" (fun _ => [("e1", .ok ⟨none, some [some "boom"]⟩)]) =
      .error "Arweave GraphQL returned errors: boom" :=
  ⟨claim_C8_failover_amended.1 [("e1", GqlOutcome.netErr "down")] []
      "e2" ⟨none, none⟩ (by decide),
    claim_C8_failover_amended.2.2 "w"
      (fun _ => [("e1", .ok ⟨none, some [some "boom"]⟩)])
      ⟨none, some [some "boom"]⟩ (some "boom") [] rfl rfl⟩

/-! ## Stable sort lemmas for `sortShards` -/

theorem insertShard_perm (x : ShardInfo) (l : List ShardInfo) :
    (insertShard x l).Perm (x :: l) := by
  induction l with
  | nil => exact List.Perm.refl _
  | cons y ys ih =>
      unfold insertShard
      by_cases h : x.version ≤ y.version
      · rw [if_pos h]
      · rw [if_neg h]
        exact (ih.cons y).trans (List.Perm.swap x y ys)

theorem sortShards_perm (l : List ShardInfo) : (sortShards l).Perm l := by
  induction l with
  | nil => exact List.Perm.refl _
  | cons a t ih =>
      exact (insertShard_perm a (sortShards t)).trans (ih.cons a)

theorem mem_insertShard {a x : ShardInfo} {l : List ShardInfo} :
    a ∈ insertShard x l ↔ a = x ∨ a ∈ l := by
  rw [(insertShard_perm x l).mem_iff]
  exact List.mem_cons

theorem pairwise_insertShard (x : ShardInfo) (l : List ShardInfo)
    (h : l.Pairwise (fun a b => a.version ≤ b.version)) :
    (insertShard x l).Pairwise (fun a b => a.version ≤ b.version) := by
  induction l with
  | nil => simp [insertShard]
  | cons y ys ih =>
      rw [List.pairwise_cons] at h
      unfold insertShard
      by_cases hxy : x.version ≤ y.version
      · rw [if_pos hxy]
        refine List.Pairwise.cons ?_ (List.Pairwise.cons h.1 h.2)
        intro z hz
        rcases List.mem_cons.mp hz with hz | hz
        · rw [hz]; exact hxy
        · exact le_trans hxy (h.1 z hz)
      · rw [if_neg hxy]
        refine List.Pairwise.cons ?_ (ih h.2)
        intro z hz
        rcases mem_insertShard.mp hz with hz | hz
        · rw [hz]; exact le_of_lt (lt_of_not_ge hxy)
        · exact h.1 z hz

theorem sortShards_sorted (l : List ShardInfo) :
    (sortShards l).Pairwise (fun a b => a.version ≤ b.version) := by
  induction l with
  | nil => simp [sortShards]
  | cons a t ih => exact pairwise_insertShard a (sortShards t) ih

theorem filter_insertShard (x : ShardInfo) (l : List ShardInfo) (v : Int) :
    (insertShard x l).filter (fun s => s.version == v) =
      if x.version = v then x :: l.filter (fun s => s.version == v)
      else l.filter (fun s => s.version == v) := by
  induction l with
  | nil =>
      by_cases hxv : x.version = v
      · simp [insertShard, List.filter_cons, hxv]
      · simp [insertShard, List.filter_cons, hxv]
  | cons y ys ih =>
      unfold insertShard
      by_cases hxy : x.version ≤ y.version
      · rw [if_pos hxy]
        by_cases hxv : x.version = v <;> simp [List.filter_cons, hxv]
      · rw [if_neg hxy]
        by_cases hxv : x.version = v
        · have hyv : ¬ (y.version = v) := by
            intro hyv
            exact hxy (by rw [hxv, hyv])
          rw [List.filter_cons, if_neg (by simpa using hyv), ih, if_pos hxv,
            if_pos hxv, List.filter_cons, if_neg (by simpa using hyv)]
        · by_cases hyv : y.version = v
          · rw [List.filter_cons, if_pos (by simpa using hyv), ih, if_neg hxv,
              if_neg hxv, List.filter_cons, if_pos (by simpa using hyv)]
          · rw [List.filter_cons, if_neg (by simpa using hyv), ih, if_neg hxv,
              if_neg hxv, List.filter_cons, if_neg (by simpa using hyv)]

theorem sortShards_filter (l : List ShardInfo) (v : Int) :
    (sortShards l).filter (fun s => s.version == v) =
      l.filter (fun s => s.version == v) := by
  induction l with
  | nil => rfl
  | cons a t ih =>
      show (insertShard a (sortShards t)).filter (fun s => s.version == v) = _
      rw [filter_insertShard, List.filter_cons]
      by_cases hav : a.version = v
      · rw [if_pos hav, if_pos (by simpa using hav), ih]
      · rw [if_neg hav, if_neg (by simpa using hav), ih]

/-! ## `acceptNode` inversion -/

/-- Inversion of the strict acceptance filter: an accepted node carries a
`Type` tag naming the entry's type, a non-empty `Wallet` tag equal to the
queried address case-insensitively, a `Signature` tag with non-empty
trimmed value, and — for delta/snapshot — a `Version` tag parsing to the
entry's version, at least 1; identity entries get version 0. -/
theorem acceptNode_spec (w : String) (node : TxNode) (s : ShardInfo)
    (h : acceptNode w node = some s) :
    s.txId = node.id ∧
    tagLast node.tags "Type" = some (typeName s.type) ∧
    (∃ wv, tagLast node.tags "Wallet" = some wv ∧ wv ≠ "" ∧
      jsToLower wv = jsToLower w ∧ s.wallet = wv) ∧
    (∃ raw, tagLast node.tags "Signature" = some raw ∧ jsTrim raw ≠ "" ∧
      s.signature = some (jsTrim raw)) ∧
    ((s.type = .delta ∨ s.type = .snapshot) →
      ∃ rv, tagLast node.tags "Version" = some rv ∧
        jsParseInt rv = some s.version ∧ 1 ≤ s.version) ∧
    (s.type = .identity → s.version = 0) := by
  simp only [acceptNode] at h
  by_cases htri : ((tagLast node.tags "Type").getD "" = "delta" ∨
      (tagLast node.tags "Type").getD "" = "snapshot" ∨
      (tagLast node.tags "Type").getD "" = "identity")
  case neg => rw [if_neg htri] at h; exact Option.noConfusion h
  rw [if_pos htri] at h
  by_cases hwc : ((tagLast node.tags "Wallet").getD "" = "" ∨
      jsToLower ((tagLast node.tags "Wallet").getD "") ≠ jsToLower w)
  case pos => rw [if_pos hwc] at h; exact Option.noConfusion h
  rw [if_neg hwc] at h
  push_neg at hwc
  by_cases hc3 : ((tagLast node.tags "Type").getD "" = "delta" ∨
      (tagLast node.tags "Type").getD "" = "snapshot")
  · rw [if_pos hc3] at h
    by_cases hrv : ((tagLast node.tags "Version").getD "" = "")
    case pos => rw [if_pos hrv] at h; exact Option.noConfusion h
    rw [if_neg hrv] at h
    rcases hpv : jsParseInt ((tagLast node.tags "Version").getD "") with _ | v
    · rw [hpv] at h
      exact Option.noConfusion h
    simp only [hpv] at h
    by_cases hlt : v < 1
    case pos => rw [if_pos hlt] at h; exact Option.noConfusion h
    rw [if_neg hlt] at h
    by_cases hsg : ((((tagLast node.tags "Signature").map jsTrim).getD "").length > 0)
    case neg => rw [if_neg hsg] at h; exact Option.noConfusion h
    rw [if_pos hsg] at h
    have hs := (Option.some.inj h).symm
    subst hs
    rcases hwt : tagLast node.tags "Wallet" with _ | wv
    · rw [hwt] at hwc
      exact (hwc.1 rfl).elim
    rcases hst : tagLast node.tags "Signature" with _ | raw
    · rw [hst] at hsg
      exact absurd hsg (by decide)
    rcases hvt : tagLast node.tags "Version" with _ | rv
    · rw [hvt] at hrv
      exact (hrv rfl).elim
    rcases htt : tagLast node.tags "Type" with _ | t
    · rw [htt] at hc3
      rcases hc3 with h1 | h1 <;> exact absurd h1 (by decide)
    rw [hwt] at hwc
    rw [hst] at hsg
    rw [hvt] at hpv
    rw [htt] at hc3
    simp only [Option.getD_some] at hwc hc3
    refine ⟨rfl, ?_, ?_, ?_, ?_, ?_⟩
    · rcases hc3 with h1 | h1
      · subst h1
        rfl
      · subst h1
        rfl
    · refine ⟨wv, rfl, hwc.1, hwc.2, rfl⟩
    · refine ⟨raw, rfl, ?_, rfl⟩
      intro he
      have hsg2 : (jsTrim raw).length > 0 := by simpa using hsg
      rw [he] at hsg2
      exact absurd hsg2 (by decide)
    · intro _
      refine ⟨rv, rfl, ?_, ?_⟩
      · exact hpv
      · exact Int.not_lt.mp hlt
    · intro hid
      have hid2 : (if t = "delta" then ShardType.delta else ShardType.snapshot) =
          ShardType.identity := by simpa using hid
      by_cases hd : t = "delta" <;> simp [hd] at hid2
  · rw [if_neg hc3] at h
    by_cases hsg : ((((tagLast node.tags "Signature").map jsTrim).getD "").length > 0)
    case neg => rw [if_neg hsg] at h; exact Option.noConfusion h
    rw [if_pos hsg] at h
    have hs := (Option.some.inj h).symm
    subst hs
    have hidty : (tagLast node.tags "Type").getD "" = "identity" := by
      rcases htri with h1 | h1 | h1
      · exact absurd (Or.inl h1) hc3
      · exact absurd (Or.inr h1) hc3
      · exact h1
    rcases hwt : tagLast node.tags "Wallet" with _ | wv
    · rw [hwt] at hwc
      exact (hwc.1 rfl).elim
    rcases hst : tagLast node.tags "Signature" with _ | raw
    · rw [hst] at hsg
      exact absurd hsg (by decide)
    rcases htt : tagLast node.tags "Type" with _ | t
    · rw [htt] at hidty
      exact absurd hidty (by decide)
    rw [hwt] at hwc
    rw [hst] at hsg
    rw [htt] at hidty
    simp only [Option.getD_some] at hwc hidty
    subst hidty
    refine ⟨rfl, rfl, ?_, ?_, ?_, fun _ => rfl⟩
    · refine ⟨wv, rfl, hwc.1, hwc.2, rfl⟩
    · refine ⟨raw, rfl, ?_, rfl⟩
      intro he
      have hsg2 : (jsTrim raw).length > 0 := by simpa using hsg
      rw [he] at hsg2
      exact absurd hsg2 (by decide)
    · intro hcontra
      rcases hcontra with h1 | h1 <;> exact ShardType.noConfusion h1

/-! ## Loop invariants for `queryShards` -/

/-- Unfolding `processEdges` on a first edge. -/
theorem processEdges_cons (w : String) (e : GqlEdge) (rest : List GqlEdge)
    (seen : List String) (acc : List ShardInfo) :
    processEdges w (e :: rest) seen acc =
      if e.node.id ∈ seen then processEdges w rest seen acc
      else
        match acceptNode w e.node with
        | some s => processEdges w rest (e.node.id :: seen) (acc ++ [s])
        | none => processEdges w rest (e.node.id :: seen) acc := rfl

/-- An entry appears in `queryShards`' pre-sort output only via some node
of some parsed page that passed the acceptance filter. -/
def provenanced (w : String) (oracle : Nat → List (String × GqlOutcome))
    (s : ShardInfo) : Prop :=
  ∃ p r e, gqlRequest (oracle p) = .ok r ∧ e ∈ respEdges r ∧
    acceptNode w e.node = some s

/-- Invariants of the per-page edge loop: every output entry is an input
entry or stems from an accepted edge of this page; output ids live in the
output seen set; and the output ids stay pairwise distinct. -/
theorem processEdges_inv (w : String) :
    ∀ (edges : List GqlEdge) (seen : List String) (acc : List ShardInfo),
      (∀ s ∈ acc, s.txId ∈ seen) →
      (acc.map (fun s => s.txId)).Nodup →
      ((∀ s ∈ (processEdges w edges seen acc).2,
          s ∈ acc ∨ ∃ e ∈ edges, acceptNode w e.node = some s)
        ∧ (∀ s ∈ (processEdges w edges seen acc).2,
            s.txId ∈ (processEdges w edges seen acc).1)
        ∧ ((processEdges w edges seen acc).2.map (fun s => s.txId)).Nodup) := by
  intro edges
  induction edges with
  | nil =>
      intro seen acc hseen hnodup
      exact ⟨fun s hs => Or.inl hs, hseen, hnodup⟩
  | cons e rest ih =>
      intro seen acc hseen hnodup
      rw [processEdges_cons]
      by_cases hmem : e.node.id ∈ seen
      · rw [if_pos hmem]
        obtain ⟨h1, h2, h3⟩ := ih seen acc hseen hnodup
        refine ⟨?_, h2, h3⟩
        intro s hs
        rcases h1 s hs with hold | ⟨e', he', hacc'⟩
        · exact Or.inl hold
        · exact Or.inr ⟨e', List.mem_cons_of_mem e he', hacc'⟩
      · rw [if_neg hmem]
        rcases hacc : acceptNode w e.node with _ | s0
        · simp only
          obtain ⟨h1, h2, h3⟩ := ih (e.node.id :: seen) acc
            (fun s hs => List.mem_cons_of_mem _ (hseen s hs)) hnodup
          refine ⟨?_, h2, h3⟩
          intro s hs
          rcases h1 s hs with hold | ⟨e', he', hacc'⟩
          · exact Or.inl hold
          · exact Or.inr ⟨e', List.mem_cons_of_mem e he', hacc'⟩
        · simp only
          have htx : s0.txId = e.node.id := (acceptNode_spec w e.node s0 hacc).1
          have hseen' : ∀ s ∈ acc ++ [s0], s.txId ∈ e.node.id :: seen := by
            intro s hs
            rcases List.mem_append.mp hs with h1 | h1
            · exact List.mem_cons_of_mem _ (hseen s h1)
            · rw [List.mem_singleton.mp h1, htx]
              exact List.mem_cons_self _ _
          have hnodup' : ((acc ++ [s0]).map (fun s => s.txId)).Nodup := by
            rw [List.map_append]
            rw [List.nodup_append]
            refine ⟨hnodup, by simp, ?_⟩
            intro x hx
            simp only [List.map_cons, List.map_nil, List.mem_cons,
              List.not_mem_nil, or_false]
            intro hx0
            obtain ⟨s1, hs1, hs1x⟩ := List.mem_map.mp hx
            rw [hx0, htx] at hs1x
            exact hmem (hs1x ▸ hseen s1 hs1)
          obtain ⟨h1, h2, h3⟩ := ih (e.node.id :: seen) (acc ++ [s0]) hseen' hnodup'
          refine ⟨?_, h2, h3⟩
          intro s hs
          rcases h1 s hs with hold | ⟨e', he', hacc'⟩
          · rcases List.mem_append.mp hold with ha | ha
            · exact Or.inl ha
            · exact Or.inr ⟨e, List.mem_cons_self e rest,
                (List.mem_singleton.mp ha) ▸ hacc⟩
          · exact Or.inr ⟨e', List.mem_cons_of_mem e he', hacc'⟩

/-- Invariant of the pagination loop: an `ok` result extends the
provenance and id-distinctness invariants from the accumulator to the
final pre-sort output. -/
theorem qsLoop_inv (w : String) (oracle : Nat → List (String × GqlOutcome)) :
    ∀ (fuel page : Nat) (seen : List String) (acc out : List ShardInfo),
      qsLoop w oracle fuel page seen acc = .ok out →
      (∀ s ∈ acc, s.txId ∈ seen) →
      (acc.map (fun s => s.txId)).Nodup →
      (∀ s ∈ acc, provenanced w oracle s) →
      ((∀ s ∈ out, provenanced w oracle s)
        ∧ (out.map (fun s => s.txId)).Nodup) := by
  intro fuel
  induction fuel with
  | zero =>
      intro page seen acc out h
      rw [qsLoop_zero] at h
      exact absurd h (by simp)
  | succ fuel ih =>
      intro page seen acc out h hseen hnodup hprov
      rw [qsLoop_succ] at h
      cases hg : gqlRequest (oracle page) with
      | error e =>
          rw [hg] at h
          exact absurd h (by simp)
      | ok r =>
          rw [hg] at h
          simp only at h
          by_cases herr : gqlErrorsNonempty r = true
          · rw [if_pos herr] at h
            exact absurd h (by simp)
          rw [if_neg herr] at h
          by_cases hedges : respEdges r = []
          · rw [if_pos hedges] at h
            have hout : out = acc := (Except.ok.inj h).symm
            subst hout
            exact ⟨hprov, hnodup⟩
          rw [if_neg hedges] at h
          obtain ⟨hsub, hseen', hnodup'⟩ :=
            processEdges_inv w (respEdges r) seen acc hseen hnodup
          have hprov' : ∀ s ∈ (processEdges w (respEdges r) seen acc).2,
              provenanced w oracle s := by
            intro s hs
            rcases hsub s hs with hold | ⟨e, he, haccn⟩
            · exact hprov s hold
            · exact ⟨page, r, e, hg, he, haccn⟩
          by_cases hnext : (respHasNext r = true ∧
              ((((respEdges r).getLast?).map (·.cursor)).getD "" ≠ ""))
          · rw [if_pos hnext] at h
            exact ih (page + 1) _ _ out h hseen' hnodup' hprov'
          · rw [if_neg hnext] at h
            have hout : out = (processEdges w (respEdges r) seen acc).2 :=
              (Except.ok.inj h).symm
            subst hout
            exact ⟨hprov', hnodup'⟩

/-- `C2`: every entry `queryShards` returns stems from a transaction node
of a parsed gateway page whose `Type` tag is `delta`, `snapshot` or
`identity` (named by the entry's type), whose `Wallet` tag is non-empty
and equals the queried address case-insensitively, and whose `Signature`
tag has a non-empty trimmed value; delta/snapshot entries carry the
integer version `parseInt`-ed from the `Version` tag, at least 1, while
identity entries get version 0; the returned transaction ids are pairwise
distinct; and the list is the stable ascending-version sort of the
encounter-order list (equal-version entries keep encounter order, which
the per-version filter equality expresses). -/
theorem claim_C2_query_shards (w : String)
    (oracle : Nat → List (String × GqlOutcome))
    (out : List ShardInfo) (h : queryShards w oracle = .ok out) :
    (∀ s ∈ out, ∃ p r e, gqlRequest (oracle p) = .ok r ∧ e ∈ respEdges r ∧
      s.txId = e.node.id ∧
      tagLast e.node.tags "Type" = some (typeName s.type) ∧
      (∃ wv, tagLast e.node.tags "Wallet" = some wv ∧ wv ≠ "" ∧
        jsToLower wv = jsToLower w ∧ s.wallet = wv) ∧
      (∃ raw, tagLast e.node.tags "Signature" = some raw ∧ jsTrim raw ≠ "" ∧
        s.signature = some (jsTrim raw)) ∧
      ((s.type = ShardType.delta ∨ s.type = ShardType.snapshot) →
        ∃ rv, tagLast e.node.tags "Version" = some rv ∧
          jsParseInt rv = some s.version ∧ 1 ≤ s.version) ∧
      (s.type = ShardType.identity → s.version = 0))
    ∧ (out.map (fun s => s.txId)).Nodup
    ∧ out.Pairwise (fun a b => a.version ≤ b.version)
    ∧ (∃ pre, queryShardsPre w oracle = .ok pre ∧ out = sortShards pre ∧
        ∀ v, out.filter (fun s => s.version == v) =
          pre.filter (fun s => s.version == v)) := by
  unfold queryShards at h
  cases hpre : queryShardsPre w oracle with
  | error e =>
      rw [hpre] at h
      exact absurd h (by simp [Except.map])
  | ok pre =>
      rw [hpre] at h
      have hout : out = sortShards pre := by
        have h2 := h
        simp only [Except.map] at h2
        exact (Except.ok.inj h2).symm
      obtain ⟨hprov, hnodup⟩ := qsLoop_inv w oracle 1000 0 [] [] pre hpre
        (by simp) (by simp) (by simp)
      refine ⟨?_, ?_, ?_, pre, rfl, hout, ?_⟩
      · intro s hs
        have hs' : s ∈ pre := by
          rw [hout] at hs
          exact (sortShards_perm pre).mem_iff.mp hs
        obtain ⟨p, r, e, hreq, he, haccn⟩ := hprov s hs'
        obtain ⟨h1, h2, h3, h4, h5, h6⟩ := acceptNode_spec w e.node s haccn
        exact ⟨p, r, e, hreq, he, h1, h2, h3, h4, h5, h6⟩
      · rw [hout]
        exact (((sortShards_perm pre).map (fun s => s.txId)).nodup_iff).mpr hnodup
      · rw [hout]
        exact sortShards_sorted pre
      · intro v
        rw [hout]
        exact sortShards_filter pre v

/-- Witness for `C2`: a single page with a delta shard and an identity
transaction; the result is sorted with the identity entry (version 0)
first and has distinct transaction ids. -/
theorem claim_C2_query_shards_witness :
    ([⟨"tx2", 0, ShardType.identity, "", some "s2", "w"⟩,
      ⟨"tx1", 2, ShardType.delta, "100", some "sig", "W"⟩] :
        List ShardInfo).Pairwise (fun a b => a.version ≤ b.version) :=
  (claim_C2_query_shards "w"
    (fun _ => [("e1", GqlOutcome.ok
      ⟨some ⟨some (some false), some
        [⟨"c1", ⟨"tx1", [("Type", "delta"), ("Wallet", "W"),
          ("Signature", " sig "), ("Version", "2"), ("Timestamp", "100")]⟩⟩,
         ⟨"c2", ⟨"tx2", [("Type", "identity"), ("Wallet", "w"),
          ("Signature", "s2")]⟩⟩]⟩, none⟩)])
    [⟨"tx2", 0, ShardType.identity, "", some "s2", "w"⟩,
     ⟨"tx1", 2, ShardType.delta, "100", some "sig", "W"⟩]
    rfl).2.2.1

end Sharme
